import Mathlib

/-
Verification of the DASK expression evaluator (DSAA-CA2).

Shallow embedding of the Python sources:
  structures/BinaryTree.py, structures/DASK_ParseTree.py, structures/HashTable.py,
  structures/SortedMap.py, src/expression_optimizer.py, src/dependency_analyzer.py,
  main.py.

Modelling conventions:
  - Numeric values are rationals.  The source computes with Python floats; every
    concrete value appearing in the verified properties is a small dyadic
    rational on which float arithmetic is exact.  Fractional exponents of the
    "**" operator produce irrational (or complex) float results and lie outside
    the rational model; those branches are modelled as a raised error and no
    verified property exercises them.
  - A raised Python exception is modelled as the error case of Except Unit.
  - Python None outcomes of evaluation are modelled as the none case of Option.
  - The Stack class (structures/Stack.py is absent from the sources; only its
    callers are present) is modelled from the specification: a LIFO stack with
    push, pop, is_empty and size, here a Lean list whose head is the top.
-/

set_option maxRecDepth 8000

/- ## structures/BinaryTree.py -/

/-- A BinaryTree node: a string key and optional left and right subtrees,
mirroring the Python class whose left_tree and right_tree default to None. -/
inductive BTree where
  | mk (key : String) (left : Option BTree) (right : Option BTree)

def BTree.key : BTree → String
  | .mk k _ _ => k

def BTree.left : BTree → Option BTree
  | .mk _ l _ => l

def BTree.right : BTree → Option BTree
  | .mk _ _ r => r

/-- A childless node, as produced by the Python constructor BinaryTree(key). -/
def leaf (s : String) : BTree := .mk s none none

/- ## DASK_ParseTree.operations -/

def operations : List String := ["+", "-", "/", "*", "**", "++", "//"]

/- ## Python string predicates and float() parsing -/

/-- Python str.isalpha: nonempty and every character alphabetic. -/
def pyIsAlpha (s : String) : Bool := !s.isEmpty && s.toList.all Char.isAlpha

/-- Python str.isdigit: nonempty and every character a digit. -/
def pyIsDigit (s : String) : Bool := !s.isEmpty && s.toList.all Char.isDigit

def digitsToNat (ds : List Char) : ℕ :=
  ds.foldl (fun acc c => 10 * acc + (c.toNat - 48)) 0

/-- Value of the fractional digit run after the decimal point. -/
def fracValue (ds : List Char) : ℚ := (digitsToNat ds : ℚ) / (10 ^ ds.length)

def parseFloatCore (cs : List Char) : Option ℚ :=
  let intPart := cs.takeWhile Char.isDigit
  match cs.dropWhile Char.isDigit with
  | [] => if intPart = [] then none else some (digitsToNat intPart)
  | '.' :: rest =>
    let fracPart := rest.takeWhile Char.isDigit
    if rest.dropWhile Char.isDigit = [] ∧ (intPart ≠ [] ∨ fracPart ≠ []) then
      some ((digitsToNat intPart : ℚ) + fracValue fracPart)
    else none
  | _ => none

/-- Python float(s) on the plain decimal numerals this system produces
(digit runs with at most one decimal point, optionally signed).  Exponent
notation, inf, nan, underscores and surrounding whitespace are outside the
model; the tokenizer never produces them.  none models a raised ValueError. -/
def parseFloat (s : String) : Option ℚ :=
  match s.toList with
  | '-' :: cs => (parseFloatCore cs).map (fun q => -q)
  | '+' :: cs => parseFloatCore cs
  | cs => parseFloatCore cs

/- ## DASK_ParseTree.summative -/

/-- summative(a) = a * (a + 1) // 2, with Python floor division by 2. -/
def summative (a : ℚ) : ℚ := (⌊a * (a + 1) / 2⌋ : ℤ)

/-- The triangular-number function exactly as the specification words it:
T(a) = a*(a+1)/2 with exact halving.  Kept separate from summative, which is
translated from the source, so the two can be compared. -/
def triangularSpec (a : ℚ) : ℚ := a * (a + 1) / 2

/- ## DASK_ParseTree.evaluate

The hash-table argument is abstracted to a lookup function: for a name it
returns none when hash_table[op] is None, and some of the stored Dask value
(itself an Option, since a stored value may be None) otherwise. -/

def evaluate (lookup : String → Option (Option ℚ)) : BTree → Except Unit (Option ℚ)
  | .mk op (some lt) (some rt) => do
    let lv ← evaluate lookup lt
    match lv with
    | none => return none
    | some a =>
      let rv ← evaluate lookup rt
      match rv with
      | none => return none
      | some b =>
        if op = "+" then return some (a + b)
        else if op = "-" then return some (a - b)
        else if op = "/" then
          -- Python raises ZeroDivisionError when the divisor is zero
          if b = 0 then throw () else return some (a / b)
        else if op = "*" then return some (a * b)
        else if op = "**" then
          -- integral exponents follow Python exactly (0 ** negative raises);
          -- fractional exponents leave the rational model (see header)
          if b.den = 1 then
            if a = 0 ∧ b.num < 0 then throw () else return some (a ^ b.num)
          else throw ()
        else if op = "++" then return some (summative a + summative b)
        else if op = "//" then
          if summative b = 0 then throw () else return some (summative a / summative b)
        else return none
  | .mk op _ _ =>
    -- fewer than two children: the Python code falls through to the leaf logic
    -- without recursing (a one-child node reaches this path as well)
    if op ∈ operations then .ok none
    else if pyIsAlpha op then
      .ok (match lookup op with
           | some v => v
           | none => none)
    else
      match parseFloat op with
      | some q => .ok (some q)
      | none => .error ()   -- float(op) raises ValueError

/- ## DASK_ParseTree.tokenizer

The accumulator holds the token list in reverse (head = most recent token),
mirroring mutation of tokens[-1]. -/

def tokStep (acc : List String) (c : Char) : List String :=
  if c = '(' ∨ c = ')' then String.mk [c] :: acc
  else if operations.contains (String.mk [c]) then
    match acc with
    | last :: rest =>
      if operations.contains last then (last.push c) :: rest
      else String.mk [c] :: last :: rest
    | [] => [String.mk [c]]
  else if c.isDigit ∨ c = '.' then
    match acc with
    | last :: rest =>
      if pyIsDigit last ∨ last.toList.contains '.' then (last.push c) :: rest
      else String.mk [c] :: last :: rest
    | [] => [String.mk [c]]
  else if c.isAlpha then
    match acc with
    | last :: rest =>
      if pyIsAlpha last then (last.push c) :: rest
      else String.mk [c] :: last :: rest
    | [] => [String.mk [c]]
  else acc

def tokenizer (s : String) : List String := (s.toList.foldl tokStep []).reverse

/- ## DASK_ParseTree.verify_expression -/

/-- Python s.replace(".", "", 1): remove the first decimal point, if any. -/
def removeFirstDot (s : String) : String :=
  let pre := s.toList.takeWhile (· ≠ '.')
  match s.toList.dropWhile (· ≠ '.') with
  | _ :: post => String.mk (pre ++ post)
  | [] => String.mk pre

/-- Operand test used by the validator:
t.isalpha() or t.replace(".", "", 1).isdigit(). -/
def isOperandTok (s : String) : Bool := pyIsAlpha s || pyIsDigit (removeFirstDot s)

/-- One step of the validator scan.  none models an early "return False";
the list is the stack with its head as top. -/
def verifyStep (stack : Option (List String)) (t : String) : Option (List String) :=
  match stack with
  | none => none
  | some st =>
    if t = ")" then
      if st = [] then none   -- ")" with an empty stack
      else
        let grp := st.takeWhile (· ≠ "(")   -- popped elements, pop order
        match st.dropWhile (· ≠ "(") with
        | [] => none   -- stack exhausted without a matching "(" (while-else)
        | _ :: rest =>
          let expGroup := grp.reverse
          if expGroup.length = 1 ∧ isOperandTok (expGroup.getD 0 "") then
            some ("EXP" :: rest)
          else if expGroup.length ≠ 3 then none
          else if ¬ (operations.contains (expGroup.getD 1 "")) then none
          else if ¬ isOperandTok (expGroup.getD 0 "") then none
          else if ¬ isOperandTok (expGroup.getD 2 "") then none
          else some ("EXP" :: rest)
    else some (t :: st)

/-- verify_expression: tokenizes its argument and runs the stack scan;
accepts iff exactly the marker EXP remains. -/
def verifyExpression (exp : String) : Bool :=
  match (tokenizer exp).foldl verifyStep (some []) with
  | none => false
  | some st => st == ["EXP"]

/- ## DASK_ParseTree.buildParseTree

The Python construction mutates nodes that are aliased from the stack, so the
embedding makes the heap explicit: nodes live in a list indexed by allocation
order, and the stack holds node indices.  BinaryTree.insertLeft and
insertRight descend the corresponding child chain; the descent is bounded by
the heap size, which suffices because every child index exceeds the index of
its parent. -/

structure HNode where
  key : String
  left : Option ℕ
  right : Option ℕ
deriving DecidableEq, Repr

def heapGet (h : List HNode) (i : ℕ) : HNode := h.getD i ⟨"?", none, none⟩

def insertLeftAux (h : List HNode) (parent child : ℕ) : ℕ → List HNode
  | 0 => h
  | fuel + 1 =>
    let p := heapGet h parent
    match p.left with
    | none => h.set parent { p with left := some child }
    | some l => insertLeftAux h l child fuel

def insertRightAux (h : List HNode) (parent child : ℕ) : ℕ → List HNode
  | 0 => h
  | fuel + 1 =>
    let p := heapGet h parent
    match p.right with
    | none => h.set parent { p with right := some child }
    | some r => insertRightAux h r child fuel

structure BuildSt where
  heap : List HNode
  stack : List ℕ
  current : ℕ
deriving DecidableEq, Repr

/-- One token of the stack-machine tree construction.  Popping an empty stack
cannot occur on validator-accepted input; it is modelled as leaving the
current pointer unchanged. -/
def buildStep (st : BuildSt) (t : String) : BuildSt :=
  if t = "(" then
    let nb := st.heap.length
    let h1 := st.heap ++ [⟨"?", none, none⟩]
    let h2 := insertLeftAux h1 st.current nb h1.length
    { heap := h2, stack := st.current :: st.stack, current := nb }
  else if operations.contains t then
    let h1 := st.heap.set st.current { heapGet st.heap st.current with key := t }
    let rb := h1.length
    let h2 := h1 ++ [⟨"?", none, none⟩]
    let h3 := insertRightAux h2 st.current rb h2.length
    { heap := h3, stack := st.current :: st.stack, current := rb }
  else if t = ")" then
    match st.stack with
    | top :: rest => { st with stack := rest, current := top }
    | [] => st
  else
    let h1 := st.heap.set st.current { heapGet st.heap st.current with key := t }
    match st.stack with
    | top :: rest => { heap := h1, stack := rest, current := top }
    | [] => { st with heap := h1 }

/-- Read the immutable tree back out of the heap; child indices strictly
exceed their parent index, so heap length bounds the depth. -/
def extractTree (h : List HNode) : ℕ → ℕ → BTree
  | 0, _ => .mk "?" none none
  | fuel + 1, i =>
    let n := heapGet h i
    .mk n.key (n.left.map (extractTree h fuel)) (n.right.map (extractTree h fuel))

def buildParseTree (tokens : List String) : BTree :=
  if tokens.length = 3 then
    -- "Just a check for single value expressions like (42) or (Pi)":
    -- a childless node holding tokens[1]
    .mk (tokens.getD 1 "") none none
  else
    let st0 : BuildSt := { heap := [⟨"?", none, none⟩], stack := [0], current := 0 }
    let stF := tokens.foldl buildStep st0
    extractTree stF.heap stF.heap.length 0

/- ## Claim C1: division by zero in DASK_ParseTree.evaluate -/

/-- C1 counterexample: on the tree for (1/0), evaluate raises (modelled as the
error outcome, the image of the Python ZeroDivisionError) instead of returning
the unresolved outcome None, refuting the claim at this input. -/
theorem evaluate_div_zero_cex :
    evaluate (fun _ => none) (.mk "/" (some (leaf "1")) (some (leaf "0"))) = .error () ∧
    (Except.error () : Except Unit (Option ℚ)) ≠ .ok none := by
  refine ⟨rfl, ?_⟩
  intro h
  exact Except.noConfusion h

/-- C1 amended: when the right operand of "/" evaluates to zero (respectively,
when the triangular number of the right operand of "//" is zero), evaluate
raises an exception; otherwise it returns the quotient.  The unresolved None
outcome is never produced by division by zero. -/
theorem evaluate_div_zero_raises (lookup : String → Option (Option ℚ)) (l r : BTree)
    (a b : ℚ)
    (hl : evaluate lookup l = .ok (some a)) (hr : evaluate lookup r = .ok (some b)) :
    (b = 0 → evaluate lookup (.mk "/" (some l) (some r)) = .error ()) ∧
    (b ≠ 0 → evaluate lookup (.mk "/" (some l) (some r)) = .ok (some (a / b))) ∧
    (summative b = 0 → evaluate lookup (.mk "//" (some l) (some r)) = .error ()) ∧
    (summative b ≠ 0 →
      evaluate lookup (.mk "//" (some l) (some r)) = .ok (some (summative a / summative b))) := by
  refine ⟨?_, ?_, ?_, ?_⟩ <;> intro h <;>
    rw [evaluate, hl] <;> rw [hr] <;>
    simp [Bind.bind, Except.bind, h, pure, Except.pure, throw, throwThe] <;> rfl

/-- C1 witness: instantiating the amended theorem at the concrete trees for
(6/3) and (1/0). -/
theorem evaluate_div_zero_raises_witness :
    evaluate (fun _ => none) (.mk "/" (some (leaf "6")) (some (leaf "3"))) = .ok (some 2) ∧
    evaluate (fun _ => none) (.mk "/" (some (leaf "1")) (some (leaf "0"))) = .error () := by
  have h1 := evaluate_div_zero_raises (fun _ => none) (leaf "6") (leaf "3") 6 3 rfl rfl
  have h2 := evaluate_div_zero_raises (fun _ => none) (leaf "1") (leaf "0") 1 0 rfl rfl
  refine ⟨?_, h2.1 rfl⟩
  have := h1.2.1 (by norm_num)
  rw [this]
  norm_num

/- ## Claim C5: the custom operators and the triangular-number function -/

/-- C5 counterexample: on operands 0.5 and 0.5 the "++" operator returns 0,
while the specified exact triangular function gives T(0.5)+T(0.5) = 3/4:
summative floors, so the claimed exact halving fails off the integers. -/
theorem custom_ops_floor_cex :
    evaluate (fun _ => none) (.mk "++" (some (leaf "0.5")) (some (leaf "0.5"))) =
      .ok (some 0) ∧
    triangularSpec (1/2) + triangularSpec (1/2) = 3/4 ∧ (0 : ℚ) ≠ 3/4 := by
  refine ⟨?_, ?_, by norm_num⟩
  · have h : evaluate (fun _ => none) (.mk "++" (some (leaf "0.5")) (some (leaf "0.5"))) =
        .ok (some (summative (((0:ℕ):ℚ) + ((5:ℕ):ℚ)/10^1) +
                   summative (((0:ℕ):ℚ) + ((5:ℕ):ℚ)/10^1))) := rfl
    rw [h]
    norm_num [summative]
  · norm_num [triangularSpec]

/-- C5 amended: "++" returns summative(a) + summative(b) and "//" returns
summative(a) / summative(b), where summative(x) = x*(x+1) // 2 uses floor
division; summative agrees with the exact triangular function T on integers,
but not on all numeric operands. -/
theorem evaluate_custom_ops (lookup : String → Option (Option ℚ)) (l r : BTree)
    (a b : ℚ)
    (hl : evaluate lookup l = .ok (some a)) (hr : evaluate lookup r = .ok (some b)) :
    evaluate lookup (.mk "++" (some l) (some r)) =
      .ok (some (summative a + summative b)) ∧
    (summative b ≠ 0 → evaluate lookup (.mk "//" (some l) (some r)) =
      .ok (some (summative a / summative b))) ∧
    (∀ n : ℤ, summative (n : ℚ) = triangularSpec (n : ℚ)) := by
  refine ⟨?_, ?_, ?_⟩
  · rw [evaluate, hl]
    rw [hr]
    simp [Bind.bind, Except.bind, pure, Except.pure]
  · intro h
    rw [evaluate, hl]
    rw [hr]
    simp [Bind.bind, Except.bind, h, pure, Except.pure]
  · intro n
    obtain ⟨m, hm⟩ := Int.even_mul_succ_self n
    have h2 : (n : ℚ) * ((n : ℚ) + 1) = (m : ℚ) + (m : ℚ) := by exact_mod_cast hm
    unfold summative triangularSpec
    rw [h2]
    have h3 : ((m : ℚ) + m) / 2 = (m : ℚ) := by ring
    rw [h3, Int.floor_intCast]

/-- C5 witness: the amended theorem at the trees for (3++2) and (3//2);
summative 3 = 6 and summative 2 = 3. -/
theorem evaluate_custom_ops_witness :
    evaluate (fun _ => none) (.mk "++" (some (leaf "3")) (some (leaf "2"))) = .ok (some 9) ∧
    evaluate (fun _ => none) (.mk "//" (some (leaf "3")) (some (leaf "2"))) = .ok (some 2) := by
  have h := evaluate_custom_ops (fun _ => none) (leaf "3") (leaf "2") 3 2 rfl rfl
  constructor
  · rw [h.1]
    norm_num [summative]
  · rw [h.2.1 (by norm_num [summative])]
    norm_num [summative]

/- ## Claim C3: the zero-or-two-children invariant of built parse trees -/

/-- C3: the expression ((a)+b) is accepted by verify_expression (the group (a)
is a valid single-operand group) but buildParseTree leaves an operator-less
node with key "?" and exactly one child, and evaluating the resulting tree
raises (float("?") is a ValueError): the validator and the parser disagree on
nested single-operand groups. -/
theorem parse_tree_invariant_failure :
    verifyExpression "((a)+b)" = true ∧
    buildParseTree (tokenizer "((a)+b)") =
      .mk "+" (some (.mk "?" (some (leaf "a")) none)) (some (leaf "b")) ∧
    evaluate (fun _ => none) (buildParseTree (tokenizer "((a)+b)")) = .error () := by
  exact ⟨rfl, rfl, rfl⟩

/- ## Claim C8: buildParseTree on a 3-token sequence -/

/-- C8 counterexample: on the parenless 3-token sequence [2, +, 3] the length-3
special case returns the childless node holding the middle token "+", not an
operator node with the two operand leaves as children. -/
theorem buildParseTree_triple_cex :
    buildParseTree ["2", "+", "3"] = .mk "+" none none ∧
    BTree.mk "+" none none ≠ .mk "+" (some (leaf "2")) (some (leaf "3")) := by
  refine ⟨rfl, ?_⟩
  intro h
  have := congrArg BTree.left h
  simp [BTree.left, leaf] at this

/-- C8 amended: for every 3-token sequence, buildParseTree returns the single
childless node holding the middle token.  The special case targets
parenthesized single operands such as ( 42 ); it never builds a one-operator
tree. -/
theorem buildParseTree_three_tokens (a b c : String) :
    buildParseTree [a, b, c] = .mk b none none := rfl

/- ## src/expression_optimizer.py: ExpressionOptimizer

The optimizations_applied log is not modelled; no verified property concerns
it.  _evaluate_constants follows Python: division by zero yields None (no
fold), 0 ** negative raises and is caught (None); fractional exponents would
produce float or complex values outside the rational model and are modelled
as None (not folded), which no verified property exercises. -/

def isLeafB (t : BTree) : Bool := t.left.isNone && t.right.isNone

/-- _get_leaf_value: the key for a leaf, None otherwise. -/
def getLeafValue (t : BTree) : Option String := if isLeafB t then some t.key else none

/-- _is_number: float(value) succeeds. -/
def isNumber (s : String) : Bool := (parseFloat s).isSome

/-- _get_number: float(value), for strings already known to parse. -/
def getNumber (s : String) : ℚ := (parseFloat s).getD 0

/-- left_is_num = self._is_number(left_val) if left_val else False:
None and the empty string are falsy. -/
def leafIsNum : Option String → Bool
  | some s => if s = "" then false else isNumber s
  | none => false

/-- _create_number_node: integral values are printed through int(); the
Python float repr of a non-integral value has no exact rational counterpart,
so non-integral values are rendered as the rational literal.  No verified
property inspects the key of a non-integral folded constant. -/
def createNumberNode (q : ℚ) : BTree :=
  if q.den = 1 then .mk (toString q.num) none none else .mk (toString q) none none

/-- _evaluate_constants. -/
def evaluateConstants (op : String) (a b : ℚ) : Option ℚ :=
  if op = "+" then some (a + b)
  else if op = "-" then some (a - b)
  else if op = "*" then some (a * b)
  else if op = "/" then (if b ≠ 0 then some (a / b) else none)
  else if op = "**" then
    (if b.den = 1 then (if a = 0 ∧ b.num < 0 then none else some (a ^ b.num)) else none)
  else none

/-- Truthiness-aware self-cancellation test:
left_val and right_val and left_val == right_val. -/
def selfCancel (lv rv : Option String) : Bool :=
  match lv, rv with
  | some a, some b => !a.isEmpty && !b.isEmpty && a == b
  | _, _ => false

/-- The identity, zero, power and self-cancellation rules of _apply_rules, in
source order; reached when constant folding does not apply. -/
def applyRulesRest (op : String) (l r : BTree) : BTree :=
  let lv := getLeafValue l
  let rv := getLeafValue r
  let lnum := leafIsNum lv
  let rnum := leafIsNum rv
  if op = "+" ∧ rnum = true ∧ getNumber (rv.getD "") = 0 then l
  else if op = "+" ∧ lnum = true ∧ getNumber (lv.getD "") = 0 then r
  else if op = "-" ∧ rnum = true ∧ getNumber (rv.getD "") = 0 then l
  else if op = "-" ∧ selfCancel lv rv = true then leaf "0"
  else if op = "*" ∧ rnum = true ∧ getNumber (rv.getD "") = 1 then l
  else if op = "*" ∧ lnum = true ∧ getNumber (lv.getD "") = 1 then r
  else if op = "*" ∧ rnum = true ∧ getNumber (rv.getD "") = 0 then leaf "0"
  else if op = "*" ∧ lnum = true ∧ getNumber (lv.getD "") = 0 then leaf "0"
  else if op = "/" ∧ rnum = true ∧ getNumber (rv.getD "") = 1 then l
  else if op = "/" ∧ lnum = true ∧ getNumber (lv.getD "") = 0 ∧
      ¬(rnum = true ∧ getNumber (rv.getD "") = 0) then leaf "0"
  else if op = "/" ∧ selfCancel lv rv = true then leaf "1"
  else if op = "**" ∧ rnum = true ∧ getNumber (rv.getD "") = 1 then l
  else if op = "**" ∧ rnum = true ∧ getNumber (rv.getD "") = 0 then leaf "1"
  else if op = "**" ∧ lnum = true ∧ getNumber (lv.getD "") = 1 then leaf "1"
  else if op = "**" ∧ lnum = true ∧ getNumber (lv.getD "") = 0 ∧ rnum = true ∧
      getNumber (rv.getD "") > 0 then leaf "0"
  else .mk op (some l) (some r)

/-- _apply_rules: constant folding first (a None result of
_evaluate_constants falls through to the remaining rules). -/
def applyRules (op : String) (l r : BTree) : BTree :=
  let lv := getLeafValue l
  let rv := getLeafValue r
  if leafIsNum lv = true ∧ leafIsNum rv = true then
    match evaluateConstants op (getNumber (lv.getD "")) (getNumber (rv.getD "")) with
    | some result => createNumberNode result
    | none => applyRulesRest op l r
  else applyRulesRest op l r

/-- _optimize_node on a present tree.  A one-child node has its present child
optimized and then raises: _apply_rules calls _get_leaf_value on the missing
child, an attribute access on None. -/
def optimizeNode : BTree → Except Unit BTree
  | .mk op none none => .ok (.mk op none none)
  | .mk op (some l) (some r) => do
    let ol ← optimizeNode l
    let orr ← optimizeNode r
    .ok (applyRules op ol orr)
  | .mk _ (some l) none => do
    let _ ← optimizeNode l
    throw ()
  | .mk _ none (some r) => do
    let _ ← optimizeNode r
    throw ()

/- ## Claim C2: the optimizer and division nodes with a zero right operand -/

/-- A leaf value determines the whole node. -/
theorem getLeafValue_some (t : BTree) (a : String) (h : getLeafValue t = some a) :
    t = .mk a none none := by
  cases t with
  | mk k l r =>
    by_cases hb : isLeafB (.mk k l r) = true
    · have hk : k = a := by
        rw [getLeafValue, if_pos hb] at h
        exact Option.some.inj h
      have hlr : l = none ∧ r = none := by
        rw [isLeafB] at hb
        simp only [BTree.left, BTree.right, Bool.and_eq_true, Option.isNone_iff_eq_none] at hb
        exact hb
      rw [hk, hlr.1, hlr.2]
    · rw [getLeafValue, if_neg hb] at h
      exact Option.noConfusion h

theorem isEmpty_false_of_ne (s : String) (h : s ≠ "") : s.isEmpty = false := by
  rw [Bool.eq_false_iff]
  intro hh
  exact h ((String.isEmpty_iff s).mp hh)

/-- C2 counterexample: the input tree (0/0) has a division node whose right
(and left) operand is the numeric leaf 0, yet optimize replaces it with the
numeric constant leaf 1 via the self-cancellation rule. -/
theorem optimize_fold_zero_div_zero_cex :
    optimizeNode (.mk "/" (some (leaf "0")) (some (leaf "0"))) = .ok (leaf "1") ∧
    isLeafB (leaf "1") = true ∧ isNumber "1" = true :=
  ⟨rfl, rfl, rfl⟩

/-- C2 amended: a division node whose right operand is a numeric leaf with
value 0 is never folded by constant folding; it is replaced by a numeric
constant leaf only through self-cancellation, when the optimized left operand
is a leaf holding the syntactically identical token (in particular (0/0)
becomes 1); in every other case the division node is left unfolded. -/
theorem optimize_div_zero_unfolded (s : String) (hs : parseFloat s = some 0)
    (hne : s ≠ "") (l ol : BTree) (hl : optimizeNode l = .ok ol) :
    (ol ≠ leaf s → optimizeNode (.mk "/" (some l) (some (leaf s))) =
        .ok (.mk "/" (some ol) (some (leaf s)))) ∧
    (ol = leaf s → optimizeNode (.mk "/" (some l) (some (leaf s))) = .ok (leaf "1")) := by
  have hgr : getNumber s = 0 := by rw [getNumber, hs]; rfl
  have hrn : leafIsNum (some s) = true := by
    rw [leafIsNum, if_neg hne, isNumber, hs]
    rfl
  have hgls : getLeafValue (leaf s) = some s := rfl
  have hstep : optimizeNode (.mk "/" (some l) (some (leaf s))) =
      .ok (applyRules "/" ol (leaf s)) := by
    rw [optimizeNode, hl]
    show Except.bind (Except.ok ol) _ = _
    rw [show optimizeNode (leaf s) = .ok (leaf s) from rfl]
    rfl
  have hec : ∀ x : ℚ, evaluateConstants "/" x 0 = none := fun _ => rfl
  have hrest : applyRules "/" ol (leaf s) = applyRulesRest "/" ol (leaf s) := by
    rw [applyRules]
    rw [hgls]
    by_cases hln : leafIsNum (getLeafValue ol) = true
    · rw [if_pos ⟨hln, hrn⟩, Option.getD_some, hgr, hec]
    · rw [if_neg (fun hc => hln hc.1)]
  constructor
  · intro hne2
    have hsc : selfCancel (getLeafValue ol) (some s) = false := by
      match hlv : getLeafValue ol with
      | none => rfl
      | some a =>
        have ha : ol = .mk a none none := getLeafValue_some ol a hlv
        have hane : a ≠ s := by
          intro hh
          exact hne2 (by rw [ha, hh]; rfl)
        rw [selfCancel]
        simp [hane]
    rw [hstep, hrest]
    simp only [applyRulesRest, hgls, Option.getD_some, hgr]
    simp [hrn, hsc]
  · intro he
    have hsc : selfCancel (getLeafValue ol) (some s) = true := by
      rw [he, hgls, selfCancel]
      simp [isEmpty_false_of_ne s hne]
    rw [hstep, hrest]
    simp only [applyRulesRest, hgls, Option.getD_some, hgr]
    simp [hrn, hsc, leaf]

/-- C2 witness: the amended theorem at s = 0 with the variable leaf x as left
operand: the division node stays unfolded. -/
theorem optimize_div_zero_unfolded_witness :
    optimizeNode (.mk "/" (some (leaf "x")) (some (leaf "0"))) =
      .ok (.mk "/" (some (leaf "x")) (some (leaf "0"))) := by
  have h := optimize_div_zero_unfolded "0" rfl (by decide) (leaf "x") (leaf "x") rfl
  refine h.1 ?_
  intro hc
  have hkey := congrArg BTree.key hc
  simp [leaf, BTree.key] at hkey

/- ## Claim C4: idempotence of ExpressionOptimizer.optimize -/

theorem createNumberNode_shape (q : ℚ) : ∃ s, createNumberNode q = .mk s none none := by
  refine ⟨if q.den = 1 then toString q.num else toString q, ?_⟩
  rw [createNumberNode]
  split_ifs <;> rfl

set_option maxHeartbeats 1000000

theorem ite_shape (motive : BTree → Prop) (c : Prop) [Decidable c] (a b : BTree)
    (ha : motive a) (hb : motive b) : motive (if c then a else b) := by
  by_cases h : c
  · rw [if_pos h]; exact ha
  · rw [if_neg h]; exact hb

/-- Every rule outcome is the left operand, the right operand, a fresh leaf,
or the reconstructed node. -/
theorem applyRulesRest_shape (op : String) (l r : BTree) :
    applyRulesRest op l r = l ∨ applyRulesRest op l r = r ∨
    (∃ s, applyRulesRest op l r = .mk s none none) ∨
    applyRulesRest op l r = .mk op (some l) (some r) := by
  simp only [applyRulesRest]
  apply ite_shape (fun x => x = l ∨ x = r ∨ (∃ s, x = BTree.mk s none none) ∨
      x = BTree.mk op (some l) (some r))
  exact Or.inl rfl
  apply ite_shape (fun x => x = l ∨ x = r ∨ (∃ s, x = BTree.mk s none none) ∨
      x = BTree.mk op (some l) (some r))
  exact Or.inr (Or.inl rfl)
  apply ite_shape (fun x => x = l ∨ x = r ∨ (∃ s, x = BTree.mk s none none) ∨
      x = BTree.mk op (some l) (some r))
  exact Or.inl rfl
  apply ite_shape (fun x => x = l ∨ x = r ∨ (∃ s, x = BTree.mk s none none) ∨
      x = BTree.mk op (some l) (some r))
  exact Or.inr (Or.inr (Or.inl ⟨"0", rfl⟩))
  apply ite_shape (fun x => x = l ∨ x = r ∨ (∃ s, x = BTree.mk s none none) ∨
      x = BTree.mk op (some l) (some r))
  exact Or.inl rfl
  apply ite_shape (fun x => x = l ∨ x = r ∨ (∃ s, x = BTree.mk s none none) ∨
      x = BTree.mk op (some l) (some r))
  exact Or.inr (Or.inl rfl)
  apply ite_shape (fun x => x = l ∨ x = r ∨ (∃ s, x = BTree.mk s none none) ∨
      x = BTree.mk op (some l) (some r))
  exact Or.inr (Or.inr (Or.inl ⟨"0", rfl⟩))
  apply ite_shape (fun x => x = l ∨ x = r ∨ (∃ s, x = BTree.mk s none none) ∨
      x = BTree.mk op (some l) (some r))
  exact Or.inr (Or.inr (Or.inl ⟨"0", rfl⟩))
  apply ite_shape (fun x => x = l ∨ x = r ∨ (∃ s, x = BTree.mk s none none) ∨
      x = BTree.mk op (some l) (some r))
  exact Or.inl rfl
  apply ite_shape (fun x => x = l ∨ x = r ∨ (∃ s, x = BTree.mk s none none) ∨
      x = BTree.mk op (some l) (some r))
  exact Or.inr (Or.inr (Or.inl ⟨"0", rfl⟩))
  apply ite_shape (fun x => x = l ∨ x = r ∨ (∃ s, x = BTree.mk s none none) ∨
      x = BTree.mk op (some l) (some r))
  exact Or.inr (Or.inr (Or.inl ⟨"1", rfl⟩))
  apply ite_shape (fun x => x = l ∨ x = r ∨ (∃ s, x = BTree.mk s none none) ∨
      x = BTree.mk op (some l) (some r))
  exact Or.inl rfl
  apply ite_shape (fun x => x = l ∨ x = r ∨ (∃ s, x = BTree.mk s none none) ∨
      x = BTree.mk op (some l) (some r))
  exact Or.inr (Or.inr (Or.inl ⟨"1", rfl⟩))
  apply ite_shape (fun x => x = l ∨ x = r ∨ (∃ s, x = BTree.mk s none none) ∨
      x = BTree.mk op (some l) (some r))
  exact Or.inr (Or.inr (Or.inl ⟨"1", rfl⟩))
  apply ite_shape (fun x => x = l ∨ x = r ∨ (∃ s, x = BTree.mk s none none) ∨
      x = BTree.mk op (some l) (some r))
  exact Or.inr (Or.inr (Or.inl ⟨"0", rfl⟩))
  exact Or.inr (Or.inr (Or.inr rfl))

theorem applyRules_shape (op : String) (l r : BTree) :
    applyRules op l r = l ∨ applyRules op l r = r ∨
    (∃ s, applyRules op l r = .mk s none none) ∨
    applyRules op l r = .mk op (some l) (some r) := by
  rw [applyRules]
  split_ifs with h
  · split
    · exact Or.inr (Or.inr (Or.inl (createNumberNode_shape _)))
    · exact applyRulesRest_shape op l r
  · exact applyRulesRest_shape op l r

/-- Rule outcomes on already-optimal children are themselves optimal. -/
theorem applyRules_fix (op : String) (l r : BTree)
    (hl : optimizeNode l = .ok l) (hr : optimizeNode r = .ok r) :
    optimizeNode (applyRules op l r) = .ok (applyRules op l r) := by
  rcases applyRules_shape op l r with h | h | ⟨s, h⟩ | h
  · rw [h]; exact hl
  · rw [h]; exact hr
  · rw [h]; exact rfl
  · rw [h]
    have hnode : optimizeNode (.mk op (some l) (some r)) = .ok (applyRules op l r) := by
      rw [optimizeNode, hl]
      show Except.bind (Except.ok l) _ = _
      rw [hr]
      rfl
    rw [hnode, h]

theorem optimizeNode_fix_aux : ∀ (n : ℕ) (t t' : BTree), sizeOf t ≤ n →
    optimizeNode t = .ok t' → optimizeNode t' = .ok t' := by
  intro n
  induction n with
  | zero =>
    intro t t' hsz h
    exfalso
    cases t with
    | mk k ol orr => simp at hsz
  | succ n ih =>
    intro t t' hsz h
    cases t with
    | mk k ol orr =>
      cases ol with
      | none =>
        cases orr with
        | none =>
          rw [optimizeNode] at h
          have ht : t' = .mk k none none := (Except.ok.inj h).symm
          rw [ht]
          rfl
        | some r =>
          exfalso
          rw [optimizeNode] at h
          cases hre : optimizeNode r <;> rw [hre] at h <;>
            simp [Bind.bind, Except.bind, throw, throwThe, MonadExceptOf.throw] at h
      | some l =>
        cases orr with
        | none =>
          exfalso
          rw [optimizeNode] at h
          cases hle : optimizeNode l <;> rw [hle] at h <;>
            simp [Bind.bind, Except.bind, throw, throwThe, MonadExceptOf.throw] at h
        | some r =>
          rw [optimizeNode] at h
          cases hle : optimizeNode l with
          | error e =>
            exfalso
            rw [hle] at h
            simp [Bind.bind, Except.bind] at h
          | ok lv =>
            rw [hle] at h
            cases hre : optimizeNode r with
            | error e =>
              exfalso
              rw [hre] at h
              simp [Bind.bind, Except.bind] at h
            | ok rv =>
              rw [hre] at h
              simp only [Bind.bind, Except.bind, Except.ok.injEq] at h
              have hszl : sizeOf l ≤ n := by simp at hsz; omega
              have hszr : sizeOf r ≤ n := by simp at hsz; omega
              have hfl : optimizeNode lv = .ok lv := ih l lv hszl hle
              have hfr : optimizeNode rv = .ok rv := ih r rv hszr hre
              rw [← h]
              exact applyRules_fix k lv rv hfl hfr

/-- C4: optimize is idempotent: whenever optimize succeeds on a tree (it
raises only on malformed one-child nodes), re-optimizing its result returns
that result unchanged. -/
theorem optimize_idempotent (t t' : BTree) (h : optimizeNode t = .ok t') :
    optimizeNode t' = .ok t' :=
  optimizeNode_fix_aux (sizeOf t) t t' le_rfl h

/-- C4 witness: the amended theorem at the tree (x+0), whose optimization is
the leaf x; optimizing again returns the leaf x unchanged. -/
theorem optimize_idempotent_witness :
    optimizeNode (.mk "+" (some (leaf "x")) (some (leaf "0"))) = .ok (leaf "x") ∧
    optimizeNode (leaf "x") = .ok (leaf "x") :=
  ⟨rfl, optimize_idempotent (.mk "+" (some (leaf "x")) (some (leaf "0"))) (leaf "x") rfl⟩

/- ## structures/HashTable.py

Open addressing with linear probing and tombstones.  The probing loops stop
when the incremented index returns to the start index, i.e. after exactly
size probes; the embedding counts those probes with an explicit bound, so the
zero-fuel case is precisely the wrap-around exit of the Python while loop. -/

inductive Slot where
  | free              -- None in self.keys
  | del               -- the DELETE tombstone object
  | used (k : String) -- a stored key
deriving DecidableEq, Repr

structure HTable (V : Type) where
  size : ℕ
  keys : List Slot
  buckets : List (Option V)

/-- hashKey on a string key: sum of character ordinals, mod size. -/
def hashSum (k : String) : ℕ := k.toList.foldl (fun acc c => acc + c.toNat) 0

def hashKey (size : ℕ) (k : String) : ℕ := hashSum k % size

/-- The probing loop of __setitem__.  Zero fuel is the wrap-around break:
the table is full and the pair is silently dropped. -/
def setLoop {V : Type} (keys : List Slot) (buckets : List (Option V)) (size : ℕ)
    (k : String) (v : V) : ℕ → ℕ → List Slot × List (Option V)
  | _, 0 => (keys, buckets)
  | idx, fuel + 1 =>
    let slot := keys.getD idx .free
    if slot = .free ∨ slot = .del then (keys.set idx (.used k), buckets.set idx (some v))
    else if slot = .used k then (keys, buckets.set idx (some v))
    else setLoop keys buckets size k v ((idx + 1) % size) fuel

def htSet {V : Type} (t : HTable V) (k : String) (v : V) : HTable V :=
  let p := setLoop t.keys t.buckets t.size k v (hashKey t.size k) t.size
  { t with keys := p.1, buckets := p.2 }

/-- The probing loop of __getitem__.  Zero fuel is the wrap-around exit
returning None (key absent). -/
def getLoop {V : Type} (keys : List Slot) (buckets : List (Option V)) (size : ℕ)
    (k : String) : ℕ → ℕ → Option V
  | _, 0 => none
  | idx, fuel + 1 =>
    let slot := keys.getD idx .free
    if slot = .free then none
    else if slot = .used k then buckets.getD idx none
    else getLoop keys buckets size k ((idx + 1) % size) fuel

def htGet {V : Type} (t : HTable V) (k : String) : Option V :=
  getLoop t.keys t.buckets t.size k (hashKey t.size k) t.size

/-- items(): the (key, value) pairs of occupied slots, in slot order.  Slots
written by htSet always carry a value, so empty-bucket pairs cannot occur. -/
def htItems {V : Type} (t : HTable V) : List (String × V) :=
  (t.keys.zip t.buckets).filterMap (fun p =>
    match p with
    | (.used k, some v) => some (k, v)
    | _ => none)

def htEmpty (V : Type) (size : ℕ) : HTable V :=
  { size := size, keys := List.replicate size .free, buckets := List.replicate size none }

/-- The Dask record: token sequence, last value, independence flag. -/
structure Dask where
  expression : List String
  value : Option ℚ
  independent : Bool
deriving DecidableEq, Repr

/-- Lookup function fed to evaluate: hash_table[op].value if hash_table[op]
is not None else None, with the outer Option marking presence. -/
def tableLookup (t : HTable Dask) : String → Option (Option ℚ) :=
  fun s => (htGet t s).map Dask.value

/- ## src/dependency_analyzer.py: DependencyAnalyzer

Python dicts preserve insertion order and are modelled as association lists;
Python sets iterate in an unspecified hash order and are modelled as
insertion-ordered duplicate-free lists.  Every set involved in a verified
property has at most one element, so this ordering choice is immaterial
there. -/

def listInsert (s : List String) (x : String) : List String :=
  if s.contains x then s else s ++ [x]

/-- _extract_dependencies: the set of alphabetic tokens. -/
def extractDependencies (tokens : List String) : List String :=
  tokens.foldl (fun acc t => if pyIsAlpha t then listInsert acc t else acc) []

def alistGet {A : Type} (m : List (String × A)) (k : String) : Option A :=
  (m.find? (fun p => p.1 == k)).map (fun p => p.2)

def alistSet {A : Type} : List (String × A) → String → A → List (String × A)
  | [], k, v => [(k, v)]
  | (k1, v1) :: rest, k, v =>
    if k1 = k then (k1, v) :: rest else (k1, v1) :: alistSet rest k v

/-- First pass of _build_graphs: defined variables and the forward graph.
items never holds a None value in this model, so the None guard of the
source is always taken.  The reverse graph is not needed by any verified
property and is omitted. -/
def buildForward (items : List (String × Dask)) : List String × List (String × List String) :=
  items.foldl
    (fun acc p =>
      let deps := (extractDependencies p.2.expression).filter (fun d => d ≠ p.1)
      let defined := listInsert acc.1 p.1
      let fg := alistSet acc.2 p.1 deps
      let fg := deps.foldl
        (fun g dep => if (alistGet g dep).isSome then g else alistSet g dep []) fg
      (defined, fg))
    ([], [])

/-- get_undefined_variables: all referenced names minus the defined names. -/
def getUndefinedVariables (defined : List String) (forward : List (String × List String)) :
    List String :=
  let allReferenced := forward.foldl (fun acc p => p.2.foldl listInsert acc) []
  allReferenced.filter (fun v => ¬ defined.contains v)

/-- _reconstruct_cycle: the suffix of the path from the first occurrence of
the cycle start, closed by repeating it; the except branch uses the last path
element (the path is never empty here). -/
def reconstructCycle (path : List String) (cycleStart : String) : List String :=
  match path.findIdx? (fun x => x == cycleStart) with
  | some i => path.drop i ++ [cycleStart]
  | none => [cycleStart, path.getLastD cycleStart, cycleStart]

/-- DFS state: vertex colors (0 unvisited, 1 visiting, 2 visited), the list
of cycles found, the variables in cycles. -/
structure DfsSt where
  state : List (String × ℕ)
  cycles : List (List String)
  varsInCycles : List String
deriving DecidableEq, Repr

/-- The recursive dfs of detect_cycles; recursion depth is bounded by the
number of unvisited nodes, so the node count suffices as fuel and the
zero-fuel case is unreachable from detectCycles. -/
def dfsVisit (forward : List (String × List String)) :
    ℕ → String → List String → DfsSt → DfsSt
  | 0, _, _, st => st
  | fuel + 1, node, path, st =>
    let st := { st with state := alistSet st.state node 1 }
    let st := ((alistGet forward node).getD []).foldl
      (fun acc neighbor =>
        match alistGet acc.state neighbor with
        | none => acc   -- undefined variable: skipped
        | some c =>
          if c = 1 then
            let cycle := reconstructCycle path neighbor
            { acc with cycles := acc.cycles ++ [cycle],
                       varsInCycles := cycle.dropLast.foldl listInsert acc.varsInCycles }
          else if c = 0 then
            dfsVisit forward fuel neighbor (path ++ [neighbor]) acc
          else acc)
      st
    { st with state := alistSet st.state node 2 }

/-- detect_cycles: run the colored DFS from every unvisited node; returns
(variables in cycles, cycle paths). -/
def detectCycles (forward : List (String × List String)) :
    List String × List (List String) :=
  let st0 : DfsSt := { state := forward.map (fun p => (p.1, 0)), cycles := [], varsInCycles := [] }
  let stF := forward.foldl
    (fun acc p =>
      if alistGet acc.state p.1 = some 0 then
        dfsVisit forward (forward.length + 1) p.1 [p.1] acc
      else acc)
    st0
  (stF.varsInCycles, stF.cycles)

/- ## Claim C7: cycle detection on x=(y+1), y=(x+1) -/

/-- The store holding exactly x=(y+1) and y=(x+1), built over the
100-slot table used by main.py. -/
def cycleTable : HTable Dask :=
  htSet (htSet (htEmpty Dask 100) "x" ⟨tokenizer "(y+1)", none, false⟩)
    "y" ⟨tokenizer "(x+1)", none, false⟩

/-- C7: with exactly x=(y+1) and y=(x+1) defined, detect_cycles reports
exactly one cycle path [x, y, x], closed by repeating the start, and the set
of variables in cycles is exactly the two members x and y (the repeated
closing element is excluded). -/
theorem detect_cycles_two_cycle :
    detectCycles (buildForward (htItems cycleTable)).2 = (["x", "y"], [["x", "y", "x"]]) := rfl

/- ## Claim C9: undefined variable w=(z+1) -/

/-- The store holding exactly w=(z+1), with z never defined. -/
def undefTable : HTable Dask :=
  htSet (htEmpty Dask 100) "w" ⟨tokenizer "(z+1)", none, false⟩

/-- C9: with w=(z+1) defined and z undefined, get_undefined_variables returns
exactly the set containing z, and evaluating the tree of w against the store
returns the unresolved outcome None without raising. -/
theorem undefined_variable_unresolved :
    getUndefinedVariables (buildForward (htItems undefTable)).1
      (buildForward (htItems undefTable)).2 = ["z"] ∧
    evaluate (tableLookup undefTable) (buildParseTree (tokenizer "(z+1)")) = .ok none :=
  ⟨rfl, rfl⟩

/- ## main.py: the display/evaluation pass (show_dask_expressions)

The token store is the 100-slot HashTable; the dependency graph is the
networkx DiGraph of main.py, modelled as insertion-ordered node and edge
lists.  networkx is a third-party library, so nx.topological_sort is
modelled from its documented contract: it yields a topological order of the
nodes and raises NetworkXUnfeasible exactly when the graph has a directed
cycle (here: layered Kahn elimination; the exact order of an acyclic result
is not relied on by any verified property). -/

structure DiGraph where
  nodes : List String
  edges : List (String × String)
deriving DecidableEq, Repr

/-- DiGraph.add_edge: inserts both endpoints and the edge, ignoring
duplicates. -/
def addEdgeG (g : DiGraph) (u v : String) : DiGraph :=
  { nodes := listInsert (listInsert g.nodes u) v,
    edges := if g.edges.contains (u, v) then g.edges else g.edges ++ [(u, v)] }

def topoSortAux (edges : List (String × String)) : ℕ → List String → Except Unit (List String)
  | 0, nodes => if nodes.isEmpty then .ok [] else .error ()
  | fuel + 1, nodes =>
    if nodes.isEmpty then .ok []
    else
      let ready := nodes.filter (fun n => ¬ edges.any (fun e => e.2 == n && nodes.contains e.1))
      if ready.isEmpty then .error ()   -- every remaining node lies on a cycle
      else do
        let rest ← topoSortAux edges fuel (nodes.filter (fun n => ¬ ready.contains n))
        .ok (ready ++ rest)

def topoSort (g : DiGraph) : Except Unit (List String) :=
  topoSortAux g.edges (g.nodes.length + 1) g.nodes

/- ## structures/SortedMap.py

list.sort with a key function is a stable sort; the model inserts each new
element after all existing elements whose key is not greater, which is the
unique stable-sort result. -/

def lowerLe (a b : String) : Bool := a.toLower ≤ b.toLower

def insSorted (le : String → String → Bool) (x : String) : List String → List String
  | [] => [x]
  | y :: ys => if le y x then y :: insSorted le x ys else x :: y :: ys

def stableSortBy (le : String → String → Bool) (l : List String) : List String :=
  l.foldl (fun acc x => insSorted le x acc) []

structure SMap where
  map : List (String × Dask)
  sortedKeys : List String
deriving DecidableEq, Repr

/-- SortedMap.__setitem__ with the default display key (lower-cased
lexicographic), the only sorting key the verified properties touch. -/
def smapSet (m : SMap) (k : String) (v : Dask) : SMap :=
  if (alistGet m.map k).isSome then { m with map := alistSet m.map k v }
  else { map := alistSet m.map k v, sortedKeys := stableSortBy lowerLe (m.sortedKeys ++ [k]) }

/- ## main.add_dask_expresssion

Python mutates the stored Dask object in place (hash_table[key] returns an
alias); the model writes the updated record back at each mutation. -/

def addDask (table : HTable Dask) (graph : DiGraph) (key exp : String) :
    Except Unit (HTable Dask × DiGraph) :=
  let tokens := tokenizer exp
  let table := htSet table key ⟨tokens, none, false⟩
  let alphaToks := tokens.filter (fun t => pyIsAlpha t)
  let graph := alphaToks.foldl (fun g t => addEdgeG g t key) graph
  if alphaToks.length = 0 then
    match htGet table key with
    | none => .error ()   -- only if the 100-slot table were full
    | some d => do
      let table := htSet table key { d with independent := true }
      let value ← evaluate (tableLookup table) (buildParseTree d.expression)
      let table := htSet table key { d with independent := true, value := value }
      .ok (table, graph)
  else .ok (table, graph)

/- ## main.show_dask_expressions

Printing is not modelled; the function returns the updated store and the
sorted map it builds.  The topological sort of a cyclic graph raises, and
the error propagates. -/

def showDask (table : HTable Dask) (graph : DiGraph) :
    Except Unit (HTable Dask × SMap) := do
  let sm : SMap := { map := [], sortedKeys := [] }
  let sm := (htItems table).foldl
    (fun acc p => if p.2.independent then smapSet acc p.1 p.2 else acc) sm
  let order ← topoSort graph
  order.foldlM
    (fun acc var =>
      match htGet acc.1 var with
      | none => .ok acc   -- skip the ones that do not exist
      | some d =>
        if d.independent then .ok acc
        else do
          let value ← evaluate (tableLookup acc.1) (buildParseTree d.expression)
          let d2 := { d with value := value }
          .ok (htSet acc.1 var d2, smapSet acc.2 var d2))
    (table, sm)

/- ## Claim C6: the display pass on the cyclic pair x=(y+1), y=(x+1) -/

/-- The store and graph after add_dask_expresssion("x", "(y+1)") and
add_dask_expresssion("y", "(x+1)") starting from the empty 100-slot table
and empty graph. -/
def cyclePairState : Except Unit (HTable Dask × DiGraph) := do
  let p ← addDask (htEmpty Dask 100) ⟨[], []⟩ "x" "(y+1)"
  addDask p.1 p.2 "y" "(x+1)"

/-- The display/evaluation pass run on that state. -/
def cyclePairShow : Except Unit (HTable Dask × SMap) := do
  let p ← cyclePairState
  showDask p.1 p.2

/-- The stored value of a variable in that state (outer layer: present in the
table; inner layer: the Dask value). -/
def cyclePairValue (v : String) : Option (Option ℚ) :=
  match cyclePairState with
  | .ok p => (htGet p.1 v).map Dask.value
  | .error _ => some (some 0)

/-- C6 counterexample: with x=(y+1) and y=(x+1) defined, the display pass
raises (nx.topological_sort fails on the cyclic graph) instead of running to
completion. -/
theorem show_expressions_cycle_raises_cex : cyclePairShow = .error () := rfl

/-- C6 amended: with x=(y+1) and y=(x+1) defined, both variables remain
unevaluated (value None), but the display/evaluation pass raises an exception
from the topological sort of the cyclic graph before evaluating anything,
rather than completing and marking them unevaluable; only the separate
dependency-analyzer feature reports the cycle without crashing. -/
theorem show_expressions_cycle_raises :
    cyclePairShow = .error () ∧
    cyclePairValue "x" = some none ∧ cyclePairValue "y" = some none :=
  ⟨rfl, rfl, rfl⟩

/- ## Claim C10: correctness of HashTable set/get under linear probing -/

/-- A slot that makes __setitem__ probe on: occupied by a different key. -/
def slotBlocks (s : Slot) (k : String) : Prop :=
  s ≠ .free ∧ s ≠ .del ∧ s ≠ .used k

/-- A slot that makes __getitem__ probe on: neither empty nor holding the
key (a tombstone also probes on). -/
def getBlocks (s : Slot) (k : String) : Prop := s ≠ .free ∧ s ≠ .used k

instance (s : Slot) (k : String) : Decidable (slotBlocks s k) := by
  unfold slotBlocks; infer_instance

instance (s : Slot) (k : String) : Decidable (getBlocks s k) := by
  unfold getBlocks; infer_instance

theorem slotBlocks_getBlocks (s : Slot) (k : String) (h : slotBlocks s k) : getBlocks s k :=
  ⟨h.1, h.2.2⟩

theorem getLoop_step {V : Type} (keys : List Slot) (buckets : List (Option V)) (size : ℕ)
    (k : String) (idx fuel : ℕ) (hblk : getBlocks (keys.getD idx .free) k) :
    getLoop keys buckets size k idx (fuel + 1) =
      getLoop keys buckets size k ((idx + 1) % size) fuel := by
  simp only [getLoop]
  rw [if_neg hblk.1, if_neg hblk.2]

theorem getLoop_all_blocked {V : Type} (keys : List Slot) (buckets : List (Option V))
    (size : ℕ) (k : String) (hsz : 0 < size)
    (hall : ∀ p, p < size → getBlocks (keys.getD p .free) k) :
    ∀ fuel idx, idx < size → getLoop keys buckets size k idx fuel = none := by
  intro fuel
  induction fuel with
  | zero => intro idx _; rfl
  | succ n ih =>
    intro idx hidx
    rw [getLoop_step keys buckets size k idx n (hall idx hidx)]
    exact ih _ (Nat.mod_lt _ hsz)

theorem getLoop_skip {V : Type} (keys : List Slot) (buckets : List (Option V))
    (size : ℕ) (k : String) (hsz : 0 < size) :
    ∀ (j idx fuel : ℕ), idx < size →
      (∀ i, i < j → getBlocks (keys.getD ((idx + i) % size) .free) k) →
      getLoop keys buckets size k idx (j + fuel) =
        getLoop keys buckets size k ((idx + j) % size) fuel := by
  intro j
  induction j with
  | zero =>
    intro idx fuel hidx _
    rw [Nat.zero_add, Nat.add_zero, Nat.mod_eq_of_lt hidx]
  | succ n ih =>
    intro idx fuel hidx hblk
    have h0 : getBlocks (keys.getD idx .free) k := by
      have := hblk 0 (Nat.succ_pos n)
      rwa [Nat.add_zero, Nat.mod_eq_of_lt hidx] at this
    have hsum : (n + 1) + fuel = (n + fuel) + 1 := by omega
    rw [hsum, getLoop_step keys buckets size k idx (n + fuel) h0]
    rw [ih ((idx + 1) % size) fuel (Nat.mod_lt _ hsz) ?_]
    · congr 1
      rw [Nat.mod_add_mod]
      congr 1
      omega
    · intro i hi
      have hbi := hblk (i + 1) (by omega)
      rw [Nat.mod_add_mod]
      have harg : idx + 1 + i = idx + (i + 1) := by omega
      rw [harg]
      exact hbi

theorem setLoop_step {V : Type} (keys : List Slot) (buckets : List (Option V)) (size : ℕ)
    (k : String) (v : V) (idx fuel : ℕ) (hblk : slotBlocks (keys.getD idx .free) k) :
    setLoop keys buckets size k v idx (fuel + 1) =
      setLoop keys buckets size k v ((idx + 1) % size) fuel := by
  simp only [setLoop]
  rw [if_neg (fun hc => hc.elim hblk.1 hblk.2.1), if_neg hblk.2.2]

theorem setLoop_all_blocked {V : Type} (keys : List Slot) (buckets : List (Option V))
    (size : ℕ) (k : String) (v : V) (hsz : 0 < size)
    (hall : ∀ p, p < size → slotBlocks (keys.getD p .free) k) :
    ∀ fuel idx, idx < size → setLoop keys buckets size k v idx fuel = (keys, buckets) := by
  intro fuel
  induction fuel with
  | zero => intro idx _; rfl
  | succ n ih =>
    intro idx hidx
    rw [setLoop_step keys buckets size k v idx n (hall idx hidx)]
    exact ih _ (Nat.mod_lt _ hsz)

theorem setLoop_skip {V : Type} (keys : List Slot) (buckets : List (Option V))
    (size : ℕ) (k : String) (v : V) (hsz : 0 < size) :
    ∀ (j idx fuel : ℕ), idx < size →
      (∀ i, i < j → slotBlocks (keys.getD ((idx + i) % size) .free) k) →
      setLoop keys buckets size k v idx (j + fuel) =
        setLoop keys buckets size k v ((idx + j) % size) fuel := by
  intro j
  induction j with
  | zero =>
    intro idx fuel hidx _
    rw [Nat.zero_add, Nat.add_zero, Nat.mod_eq_of_lt hidx]
  | succ n ih =>
    intro idx fuel hidx hblk
    have h0 : slotBlocks (keys.getD idx .free) k := by
      have := hblk 0 (Nat.succ_pos n)
      rwa [Nat.add_zero, Nat.mod_eq_of_lt hidx] at this
    have hsum : (n + 1) + fuel = (n + fuel) + 1 := by omega
    rw [hsum, setLoop_step keys buckets size k v idx (n + fuel) h0]
    rw [ih ((idx + 1) % size) fuel (Nat.mod_lt _ hsz) ?_]
    · congr 1
      rw [Nat.mod_add_mod]
      congr 1
      omega
    · intro i hi
      have hbi := hblk (i + 1) (by omega)
      rw [Nat.mod_add_mod]
      have harg : idx + 1 + i = idx + (i + 1) := by omega
      rw [harg]
      exact hbi

/-- The first non-blocking probe decides the whole get probe sequence,
whatever fuel remains beyond it. -/
theorem getLoop_result {V : Type} (keys : List Slot) (buckets : List (Option V))
    (size : ℕ) (k : String) (hsz : 0 < size) (h q : ℕ) (hh : h < size)
    (hmin : ∀ i, i < q → getBlocks (keys.getD ((h + i) % size) .free) k)
    (hstop : ¬ getBlocks (keys.getD ((h + q) % size) .free) k) :
    ∀ fuel, q < fuel →
      getLoop keys buckets size k h fuel =
        (if keys.getD ((h + q) % size) .free = .free then none
         else buckets.getD ((h + q) % size) none) := by
  intro fuel hfuel
  have hsplit : fuel = q + (fuel - q) := by omega
  rw [hsplit, getLoop_skip keys buckets size k hsz q h (fuel - q) hh hmin]
  have hone : fuel - q = (fuel - q - 1) + 1 := by omega
  rw [hone]
  simp only [getLoop]
  by_cases hfree : keys.getD ((h + q) % size) .free = .free
  · rw [if_pos hfree, if_pos hfree]
  · rw [if_neg hfree, if_neg hfree]
    have husd : keys.getD ((h + q) % size) .free = .used k := by
      by_contra hu
      exact hstop ⟨hfree, hu⟩
    rw [if_pos husd]

/-- The first non-blocking probe decides the whole set probe sequence. -/
theorem setLoop_result {V : Type} (keys : List Slot) (buckets : List (Option V))
    (size : ℕ) (k : String) (v : V) (hsz : 0 < size) (h q : ℕ) (hh : h < size)
    (hmin : ∀ i, i < q → slotBlocks (keys.getD ((h + i) % size) .free) k)
    (hstop : ¬ slotBlocks (keys.getD ((h + q) % size) .free) k) :
    ∀ fuel, q < fuel →
      setLoop keys buckets size k v h fuel =
        (if keys.getD ((h + q) % size) .free = .free ∨ keys.getD ((h + q) % size) .free = .del
         then (keys.set ((h + q) % size) (.used k), buckets.set ((h + q) % size) (some v))
         else (keys, buckets.set ((h + q) % size) (some v))) := by
  intro fuel hfuel
  have hsplit : fuel = q + (fuel - q) := by omega
  rw [hsplit, setLoop_skip keys buckets size k v hsz q h (fuel - q) hh hmin]
  have hone : fuel - q = (fuel - q - 1) + 1 := by omega
  rw [hone]
  simp only [setLoop]
  by_cases hfd : keys.getD ((h + q) % size) .free = .free ∨ keys.getD ((h + q) % size) .free = .del
  · rw [if_pos hfd, if_pos hfd]
  · rw [if_neg hfd, if_neg hfd]
    have husd : keys.getD ((h + q) % size) .free = .used k := by
      by_contra hu
      exact hstop ⟨fun hf => hfd (Or.inl hf), fun hd => hfd (Or.inr hd), hu⟩
    rw [if_pos husd]

theorem exists_offset (size h p : ℕ) (hsz : 0 < size) (hp : p < size) :
    ∃ j, j < size ∧ (h + j) % size = p := by
  refine ⟨(p + size - h % size) % size, Nat.mod_lt _ hsz, ?_⟩
  have hh : h % size < size := Nat.mod_lt _ hsz
  rw [Nat.add_mod_mod, ← Nat.mod_add_mod]
  have harith : h % size + (p + size - h % size) = p + size := by omega
  rw [harith, Nat.add_mod_right, Nat.mod_eq_of_lt hp]

theorem offset_pos_ne (size h i q : ℕ) (hi : i < size) (hq : q < size) (hne : i ≠ q) :
    (h + i) % size ≠ (h + q) % size := by
  intro heq
  have hm : i % size = q % size := Nat.ModEq.add_left_cancel rfl heq
  rw [Nat.mod_eq_of_lt hi, Nat.mod_eq_of_lt hq] at hm
  exact hne hm

theorem getD_set_ne {A : Type} (l : List A) (i j : ℕ) (a d : A) (h : i ≠ j) :
    (l.set i a).getD j d = l.getD j d := by
  simp [List.getD, List.getElem?_set_ne h]

theorem getD_set_self {A : Type} (l : List A) (i : ℕ) (a d : A) (h : i < l.length) :
    (l.set i a).getD i d = a := by
  simp [List.getD, List.getElem?_set_self, h]

/-- After a set that can place its pair (some probe position is free,
tombstoned or already holds the key), get finds the stored value. -/
theorem get_after_set {V : Type} (keys : List Slot) (buckets : List (Option V))
    (size : ℕ) (k : String) (v : V) (hsz : 0 < size)
    (hk : keys.length = size) (hb : buckets.length = size)
    (hacc : ∃ p, p < size ∧ ¬ slotBlocks (keys.getD p .free) k) :
    getLoop (setLoop keys buckets size k v (hashKey size k) size).1
      (setLoop keys buckets size k v (hashKey size k) size).2
      size k (hashKey size k) size = some v := by
  obtain ⟨p, hp, hpa⟩ := hacc
  set h := hashKey size k with hdef
  have hh : h < size := Nat.mod_lt _ hsz
  have hex : ∃ j, ¬ slotBlocks (keys.getD ((h + j) % size) .free) k := by
    obtain ⟨j, _, hje⟩ := exists_offset size h p hsz hp
    exact ⟨j, by rw [hje]; exact hpa⟩
  have hq : ¬ slotBlocks (keys.getD ((h + Nat.find hex) % size) .free) k :=
    Nat.find_spec hex
  have hmin : ∀ i, i < Nat.find hex → slotBlocks (keys.getD ((h + i) % size) .free) k :=
    fun i hi => of_not_not (Nat.find_min hex hi)
  have hqlt : Nat.find hex < size := by
    obtain ⟨j, hj, hje⟩ := exists_offset size h p hsz hp
    exact lt_of_le_of_lt (Nat.find_le (by rw [hje]; exact hpa)) hj
  have hposlt : (h + Nat.find hex) % size < size := Nat.mod_lt _ hsz
  rw [setLoop_result keys buckets size k v hsz h (Nat.find hex) hh hmin hq size hqlt]
  by_cases hfd : keys.getD ((h + Nat.find hex) % size) .free = .free ∨
      keys.getD ((h + Nat.find hex) % size) .free = .del
  · rw [if_pos hfd]
    have hstop2 : (keys.set ((h + Nat.find hex) % size) (.used k)).getD
        ((h + Nat.find hex) % size) .free = .used k :=
      getD_set_self _ _ _ _ (by rw [hk]; exact hposlt)
    have hmin2 : ∀ i, i < Nat.find hex →
        getBlocks ((keys.set ((h + Nat.find hex) % size) (.used k)).getD
          ((h + i) % size) .free) k := by
      intro i hi
      rw [getD_set_ne _ _ _ _ _
        (offset_pos_ne size h (Nat.find hex) i hqlt (lt_trans hi hqlt) (by omega))]
      exact slotBlocks_getBlocks _ _ (hmin i hi)
    rw [getLoop_result _ _ size k hsz h (Nat.find hex) hh hmin2
      (fun hg => hg.2 hstop2) size hqlt]
    rw [if_neg (by rw [hstop2]; exact fun hc => Slot.noConfusion hc)]
    exact getD_set_self _ _ _ _ (by rw [hb]; exact hposlt)
  · rw [if_neg hfd]
    have husd : keys.getD ((h + Nat.find hex) % size) .free = .used k := by
      by_contra hu
      exact hq ⟨fun hf => hfd (Or.inl hf), fun hd => hfd (Or.inr hd), hu⟩
    have hmin2 : ∀ i, i < Nat.find hex →
        getBlocks (keys.getD ((h + i) % size) .free) k :=
      fun i hi => slotBlocks_getBlocks _ _ (hmin i hi)
    rw [getLoop_result keys _ size k hsz h (Nat.find hex) hh hmin2
      (fun hg => hg.2 husd) size hqlt]
    rw [if_neg (by rw [husd]; exact fun hc => Slot.noConfusion hc)]
    exact getD_set_self _ _ _ _ (by rw [hb]; exact hposlt)

/-- C10: for the hand-rolled HashTable: (1) whenever the key is already
present or some slot is free or tombstoned, get after set(k, v) returns v;
(2) on a table completely full of other keys, set silently leaves the table
unchanged and get returns absent even with unbounded probing fuel; (3) the
get probe loop is insensitive to any fuel beyond size: the wrap-around check
terminates the Python while loop without cutting off a probe that could
still succeed. -/
theorem hashtable_set_get (V : Type) (t : HTable V) (k : String) (v : V)
    (hsz : 0 < t.size) (hk : t.keys.length = t.size) (hb : t.buckets.length = t.size) :
    ((∃ p, p < t.size ∧ ¬ slotBlocks (t.keys.getD p .free) k) →
        htGet (htSet t k v) k = some v) ∧
    ((∀ p, p < t.size → slotBlocks (t.keys.getD p .free) k) →
        htSet t k v = t ∧
        ∀ fuel, getLoop t.keys t.buckets t.size k (hashKey t.size k) fuel = none) ∧
    (∀ m, t.size ≤ m →
        getLoop t.keys t.buckets t.size k (hashKey t.size k) m = htGet t k) := by
  obtain ⟨size, keys, buckets⟩ := t
  simp only at hsz hk hb ⊢
  have hh : hashKey size k < size := Nat.mod_lt _ hsz
  refine ⟨?_, ?_, ?_⟩
  · intro hacc
    exact get_after_set keys buckets size k v hsz hk hb hacc
  · intro hall
    constructor
    · show HTable.mk size
        (setLoop keys buckets size k v (hashKey size k) size).1
        (setLoop keys buckets size k v (hashKey size k) size).2 = HTable.mk size keys buckets
      rw [setLoop_all_blocked keys buckets size k v hsz hall size (hashKey size k) hh]
    · intro fuel
      exact getLoop_all_blocked keys buckets size k hsz
        (fun p hp => slotBlocks_getBlocks _ _ (hall p hp)) fuel (hashKey size k) hh
  · intro m hm
    show getLoop keys buckets size k (hashKey size k) m =
      getLoop keys buckets size k (hashKey size k) size
    by_cases hex : ∃ j, ¬ getBlocks (keys.getD ((hashKey size k + j) % size) .free) k
    · have hq : ¬ getBlocks (keys.getD ((hashKey size k + Nat.find hex) % size) .free) k :=
        Nat.find_spec hex
      have hmin : ∀ i, i < Nat.find hex →
          getBlocks (keys.getD ((hashKey size k + i) % size) .free) k :=
        fun i hi => of_not_not (Nat.find_min hex hi)
      have hqlt : Nat.find hex < size := by
        obtain ⟨j0, hj0⟩ := hex
        have hp0 : (hashKey size k + j0) % size < size := Nat.mod_lt _ hsz
        obtain ⟨j1, hj1, hje⟩ := exists_offset size (hashKey size k)
          ((hashKey size k + j0) % size) hsz hp0
        exact lt_of_le_of_lt (Nat.find_le (by rw [hje]; exact hj0)) hj1
      rw [getLoop_result keys buckets size k hsz (hashKey size k) (Nat.find hex) hh hmin hq
        m (lt_of_lt_of_le hqlt hm)]
      rw [getLoop_result keys buckets size k hsz (hashKey size k) (Nat.find hex) hh hmin hq
        size hqlt]
    · have hall : ∀ p, p < size → getBlocks (keys.getD p .free) k := by
        intro p hp
        obtain ⟨j, _, hje⟩ := exists_offset size (hashKey size k) p hsz hp
        have := not_exists.mp hex j
        rw [← hje]
        exact of_not_not this
      rw [getLoop_all_blocked keys buckets size k hsz hall m (hashKey size k) hh,
        getLoop_all_blocked keys buckets size k hsz hall size (hashKey size k) hh]

/-- C10 witness: a 3-slot table with one foreign key; setting then getting
key b returns its value. -/
theorem hashtable_set_get_witness :
    htGet (htSet (HTable.mk 3 [.used "ab", .free, .free] [some 1, none, none]) "b" (2 : ℕ))
      "b" = some 2 := by
  have h := hashtable_set_get ℕ
    (HTable.mk 3 [.used "ab", .free, .free] [some 1, none, none]) "b" 2
    (by decide) (by decide) (by decide)
  exact h.1 ⟨1, by decide, by decide⟩
